import Mathlib

/-!
Shallow embedding of the diagnostic core of the ultimate-nag52 configuration
application, together with theorems checking the natural-language
specification against it.

Byte buffers are `List Nat` with every element `< 256`; machine integers are
`Nat` with explicit `% 2 ^ w` where wrap-around matters.
-/

namespace UN52

/-! ### ECU identification (`backend/src/diag/ident.rs`) -/

/-- Enumeration `EgsMode` from `ident.rs`: protocol variant decoded from the 16-bit
diagnostic variant code. -/
inductive EgsMode where
  | EGS51 : EgsMode
  | EGS52 : EgsMode
  | EGS53 : EgsMode
  | Unknown : Nat → EgsMode
deriving DecidableEq, Repr

/-- Transcription of `impl From<u16> for EgsMode` from `ident.rs`, transcribed arm for arm:
`0x0251 => EGS51, 0x0252 => EGS51, 0x0253 => EGS51, _ => Unknown(code)`. -/
def EgsMode.fromCode (diag_var_code : Nat) : EgsMode :=
  if diag_var_code = 0x0251 then .EGS51
  else if diag_var_code = 0x0252 then .EGS51
  else if diag_var_code = 0x0253 then .EGS51
  else .Unknown diag_var_code

/-- Enumeration `PCBVersion` from `ident.rs`. -/
inductive PCBVersion where
  | OnePointOne : PCBVersion
  | OnePointTwo : PCBVersion
  | OnePointThree : PCBVersion
  | Unknown : PCBVersion
deriving DecidableEq, Repr

/-- Transcription of `PCBVersion::from_date` from `ident.rs`. -/
def PCBVersion.from_date (w y : Nat) : PCBVersion :=
  if w = 49 ∧ y = 21 then .OnePointOne
  else if w = 27 ∧ y = 22 then .OnePointTwo
  else if w = 49 ∧ y = 22 then .OnePointThree
  else .Unknown

/-- Transcription of `bcd_decode_to_int` from `ident.rs`: `10 * (u / 16) + (u % 16)` on a `u8`. -/
def bcd_decode_to_int (u : Nat) : Nat :=
  10 * (u / 16) + u % 16

/-! ### Firmware header discovery (`backend/src/hw/firmware.rs`) -/

def HEADER_SIZE : Nat := 256

def HEADER_MAGIC : List Nat := [0x32, 0x54, 0xCD, 0xAB]

/-- The scan loop of `load_binary` in `firmware.rs`, on the current slice
`tmp = &buf[header_start_idx..]`: abort (`none`) once fewer than 4 bytes remain
or the index passes 50, stop at the first index where the magic matches,
otherwise advance the slice by one. -/
def findMagicGo : List Nat → Nat → Option Nat
  | tmp, header_start_idx =>
    if tmp.length < HEADER_MAGIC.length ∨ header_start_idx > 50 then
      none
    else if tmp.take HEADER_MAGIC.length = HEADER_MAGIC then
      some header_start_idx
    else
      match tmp with
      | [] => none
      | _ :: rest => findMagicGo rest (header_start_idx + 1)

/-- The scan loop of `load_binary` started at index `header_start_idx` of the
full buffer. -/
def findMagic (buf : List Nat) (header_start_idx : Nat) : Option Nat :=
  findMagicGo (buf.drop header_start_idx) header_start_idx

/-- Transcription of `load_binary` from `firmware.rs`, restricted to its pure core on an
already-read byte buffer: find the header magic, then require `HEADER_SIZE`
bytes from that offset.  Returns the header offset on success, `none` for the
`FirmwareLoadError::NotValid` paths. -/
def load_binary (buf : List Nat) : Option Nat :=
  match findMagic buf 0 with
  | none => none
  | some idx =>
    if (buf.drop idx).length < HEADER_SIZE then none
    else some idx

/-! ### Diagnostic session (`backend/src/diag/mod.rs`) -/

/-- Enumeration `AdapterType` from `mod.rs`. -/
inductive AdapterType where
  | USB : AdapterType
  | Passthru : AdapterType
  | SocketCAN : AdapterType
deriving DecidableEq, Repr

/-- Structure `IsoTPSettings` as configured in `Nag52Diag::new`. -/
structure IsoTPSettings where
  block_size : Nat
  st_min : Nat
  pad_frame : Bool
  can_speed : Nat
  can_use_ext_addr : Bool
deriving DecidableEq, Repr

structure TimeoutConfig where
  read_timeout_ms : Nat
  write_timeout_ms : Nat
deriving DecidableEq, Repr

structure DiagServerBasicOptions where
  send_id : Nat
  recv_id : Nat
  timeout_cfg : TimeoutConfig
deriving DecidableEq, Repr

structure DiagServerAdvancedOptions where
  global_tp_id : Nat
  tester_present_interval_ms : Nat
  tester_present_require_response : Bool
  global_session_control : Bool
  command_cooldown_ms : Nat
deriving DecidableEq, Repr

structure DiagSessionMode where
  id : Nat
  tp_require : Bool
  name : String
deriving DecidableEq, Repr

/-- Everything `Nag52Diag::new` feeds into `DynamicDiagSession::new_over_iso_tp`:
the ISO-TP channel settings, basic and advanced server options, and the extra
session modes registered on the KWP2000 protocol. -/
structure ServerConfig where
  channel_cfg : IsoTPSettings
  basic_opts : DiagServerBasicOptions
  adv_opts : DiagServerAdvancedOptions
  extra_session_modes : List DiagSessionMode
deriving DecidableEq, Repr

/-- The errors the session layer distinguishes; `DeviceNotOpen` embeds
`HardwareError::DeviceNotOpen` converted into a `DiagError`. -/
inductive DiagError where
  | DeviceNotOpen : DiagError
  | ECUError : Nat → DiagError
  | Timeout : DiagError
  | InvalidResponseLength : DiagError
deriving DecidableEq, Repr

/-- Structure `Nag52Diag` from `mod.rs`: the hardware info is irrelevant to the claims,
the endpoint handle is kept as its adapter type only. -/
structure Nag52Diag where
  endpoint_type : AdapterType
  endpoint : Option AdapterType
  server : Option ServerConfig
deriving DecidableEq, Repr

/-- The configuration computed inside `Nag52Diag::new` in `mod.rs`, transcribed
field by field; the only input it depends on is the adapter kind of `hw`. -/
def Nag52Diag.new_config (ty : AdapterType) : ServerConfig :=
  let base : IsoTPSettings :=
    { block_size := 0, st_min := 0, pad_frame := true,
      can_speed := 500000, can_use_ext_addr := false }
  let channel_cfg : IsoTPSettings :=
    match ty with
    | .SocketCAN => { base with block_size := 8, st_min := 0x20 }
    | _ => base
  { channel_cfg := channel_cfg,
    basic_opts :=
      { send_id := 0x07E1, recv_id := 0x07E9,
        timeout_cfg := { read_timeout_ms := 10000, write_timeout_ms := 10000 } },
    adv_opts :=
      { global_tp_id := 0, tester_present_interval_ms := 2000,
        tester_present_require_response := true, global_session_control := false,
        command_cooldown_ms := 0 },
    extra_session_modes := [{ id := 0x93, tp_require := true, name := "UN52DevMode" }] }

/-- Transcription of `Nag52Diag::new`: channel creation and server startup may fail in the
environment (`env_fail`); on success the struct holds the endpoint and a
server configured by `new_config`. -/
def Nag52Diag.new (hw : AdapterType) (env_fail : Option DiagError) :
    Except DiagError Nag52Diag :=
  match env_fail with
  | some e => .error e
  | none =>
    .ok { endpoint_type := hw, endpoint := some hw,
          server := some (Nag52Diag.new_config hw) }

/-- Transcription of `Nag52Diag::with_kwp`: when the server handle is absent the call fails with
the device-not-open hardware error; otherwise the closure runs on the server. -/
def Nag52Diag.with_kwp {X : Type} (d : Nag52Diag)
    (kwp_fn : ServerConfig → Except DiagError X) : Except DiagError X :=
  match d.server with
  | none => .error .DeviceNotOpen
  | some s => kwp_fn s

/-- Transcription of `Nag52Diag::try_reconnect`: first `self.server.take()` and
`self.endpoint.take()` drop the handles, then `AdapterHw::try_connect`
(environment result `connect_result`) and `Self::new` (environment failure
`new_env_fail`) rebuild the whole struct on success. -/
def Nag52Diag.try_reconnect (d : Nag52Diag)
    (connect_result : Except DiagError AdapterType)
    (new_env_fail : Option DiagError) : Nag52Diag × Except DiagError Unit :=
  let d1 : Nag52Diag := { d with server := none, endpoint := none }
  match connect_result with
  | .error e => (d1, .error e)
  | .ok dev =>
    match Nag52Diag.new dev new_env_fail with
    | .error e => (d1, .error e)
    | .ok nd => (nd, .ok ())

/-! ### Settings codec (`backend/src/diag/settings.rs`)

The settings module itself is not among the provided sources; only its callers
(`config_app/src/ui/settings_ui_gen.rs`) are.  The codec is therefore modelled
from the spec. -/

/-- Little-endian serialisation of a `width`-byte field value. -/
def toLE : Nat → Nat → List Nat
  | 0, _ => []
  | w + 1, v => v % 256 :: toLE w (v / 256)

/-- Little-endian deserialisation of a field. -/
def fromLE : List Nat → Nat
  | [] => 0
  | b :: bs => b + 256 * fromLE bs

/-- Modelled from the spec: `pack_settings` of `backend/src/diag/settings.rs`
is missing from the provided sources.  Per the spec each settings type is a
fixed-layout record keyed by a one-byte SCN identifier, packed field by field
in little-endian byte order with no padding; `layoutOf id` gives the byte
width of each field of the type with SCN id `id`, and a value is the list of
its raw field values. -/
def pack_fields : List Nat → List Nat → List Nat
  | [], _ => []
  | _, [] => []
  | w :: ws, x :: xs => toLE w x ++ pack_fields ws xs

/-- Modelled from the spec (see `pack_fields`): pack the value against the
layout selected by the SCN id. -/
def pack_settings (layoutOf : Nat → List Nat) (scn_id : Nat) (v : List Nat) :
    List Nat :=
  pack_fields (layoutOf scn_id) v

/-- Modelled from the spec: `unpack_settings` of `backend/src/diag/settings.rs`
is missing from the provided sources.  Per the spec it validates the input
length against the type's layout (failing with a length-mismatch codec error,
here `none`) and decodes field by field. -/
def unpack_fields : List Nat → List Nat → Option (List Nat)
  | [], [] => some []
  | [], _ :: _ => none
  | w :: ws, bytes =>
    if bytes.length < w then none
    else (unpack_fields ws (bytes.drop w)).map (fromLE (bytes.take w) :: ·)

/-- Modelled from the spec (see `unpack_fields`): unpack against the layout
selected by the SCN id. -/
def unpack_settings (layoutOf : Nat → List Nat) (scn_id : Nat)
    (bytes : List Nat) : Option (List Nat) :=
  unpack_fields (layoutOf scn_id) bytes

/-! ### Chunked coredump read (`config_app/src/ui/crashanalyzer.rs`) -/

/-- Enumeration `ReadState` from `crashanalyzer.rs`. -/
inductive ReadState where
  | idle : ReadState
  | prepare : ReadState
  | readingBlock : (id out_of bytes_written : Nat) → ReadState
  | completed : ReadState
  | aborted : String → ReadState
deriving DecidableEq, Repr

/-- State of the transfer loop in `CrashAnalyzerUI::make_ui`: the counter `i`,
the accumulated payload byte count (`data.len()`), the sequence-counter bytes
of the transfer-data requests sent so far, and the published progress states. -/
structure TransferTrace where
  i : Nat
  acc : Nat
  reqs : List Nat
  log : List ReadState
deriving DecidableEq, Repr

/-- One iteration of the `while (data.len() as u32) < size.1` loop of
`CrashAnalyzerUI::make_ui`, with `resp k` the (successful) response to the
`k`-th transfer-data request: send `[0x36, (i + 1) & 0xFF]`, append the
response minus its 2-byte echo header, increment `i`, publish
`ReadingBlock { id: i + 1, out_of: block_count, bytes_written: data.len() }`. -/
def transferStep (block_count : Nat) (resp : Nat → List Nat)
    (st : TransferTrace) : TransferTrace :=
  let payload := ((resp st.i).drop 2).length
  let acc := st.acc + payload
  let i := st.i + 1
  { i := i, acc := acc,
    reqs := st.reqs ++ [(st.i + 1) % 256],
    log := st.log ++ [.readingBlock (i + 1) block_count acc] }

/-- The transfer loop with explicit fuel: iterate `transferStep` while the
accumulated byte count is below `size`. -/
def transferRun (size block_count : Nat) (resp : Nat → List Nat) :
    Nat → TransferTrace → TransferTrace
  | 0, st => st
  | fuel + 1, st =>
    if st.acc < size then
      transferRun size block_count resp fuel (transferStep block_count resp st)
    else st

/-- The coredump read of `CrashAnalyzerUI::make_ui` after a successful
`init_flash_mode` returning total size `size` and negotiated block size
`block_size`, in the environment where every transfer-data request succeeds
with response `resp k`: `size == 0` completes immediately with no loop;
otherwise the loop runs with `block_count = size / block_size` (integer
division, as in the source) and the final published state is `Completed`.
Fuel `size` suffices because each productive iteration appends at least one
byte. -/
def coredumpRead (size block_size : Nat) (resp : Nat → List Nat) :
    TransferTrace × ReadState :=
  if size = 0 then
    ({ i := 0, acc := 0, reqs := [], log := [] }, .completed)
  else
    (transferRun size (size / block_size) resp size
      { i := 0, acc := 0, reqs := [], log := [] }, .completed)

/-- A response environment matching the spec's transfer examples: the `k`-th
response carries a 2-byte echo header followed by one block of payload,
the last block truncated to the bytes remaining of `size`. -/
def blockResp (size block_size : Nat) (k : Nat) : List Nat :=
  List.replicate (2 + min block_size (size - k * block_size)) 0

/-! ### Partial slicing in the read pipeline (`crashanalyzer.rs`,
`settings_ui_gen.rs`)

Rust `&v[n..]` panics when `n > v.len()`; the panic is modelled as `none`. -/

/-- Model of `data.extend_from_slice(&p[2..])` in `CrashAnalyzerUI::make_ui`: appending
a transfer-data response strips its 2-byte echo header, undefined when the
response is shorter than 2 bytes. -/
def extendPayload (data p : List Nat) : Option (List Nat) :=
  if 2 ≤ p.length then some (data ++ p.drop 2) else none

/-- Model of `write_all(&read[20..])` in `on_flash_end`: persisting the coredump strips
the 20-byte partition header, undefined when fewer than 20 bytes were
accumulated. -/
def persistCoredump (read : List Nat) : Option (List Nat) :=
  if 20 ≤ read.length then some (read.drop 20) else none

/-- Model of `unpack_settings::<T>(T::get_scn_id(), &res[2..])` in `read_scn_settings`:
the settings read strips the 2-byte response header, undefined when the
response is shorter than 2 bytes. -/
def scnResponsePayload (res : List Nat) : Option (List Nat) :=
  if 2 ≤ res.length then some (res.drop 2) else none

/-! ### Theorems -/

/-- C1: the claim states `EgsMode::from` maps `0x0251 ↦ EGS51`,
`0x0252 ↦ EGS52`, `0x0253 ↦ EGS53` (three distinct variants) and everything
else to `Unknown`.  The source instead maps all three recognized codes to
`EGS51`: evaluating the decoder at the three codes shows the collapse, so the
two other variants are never produced. -/
theorem egsMode_fromCode_collapses :
    EgsMode.fromCode 0x0251 = .EGS51 ∧
    EgsMode.fromCode 0x0252 = .EGS51 ∧
    EgsMode.fromCode 0x0253 = .EGS51 ∧
    EgsMode.fromCode 0x0252 ≠ .EGS52 ∧
    EgsMode.fromCode 0x0253 ≠ .EGS53 ∧
    EgsMode.fromCode 0x0254 = .Unknown 0x0254 := by
  refine ⟨rfl, rfl, rfl, ?_, ?_, rfl⟩ <;> decide

/-- C8: the lookup `PCBVersion::from_date` returns v1.1 for `(49, 21)`, v1.2 for
`(27, 22)`, v1.3 for `(49, 22)`, and `Unknown` for every other pair. -/
theorem pcbVersion_from_date_table (w y : Nat)
    (h : ¬((w = 49 ∧ y = 21) ∨ (w = 27 ∧ y = 22) ∨ (w = 49 ∧ y = 22))) :
    PCBVersion.from_date 49 21 = .OnePointOne ∧
    PCBVersion.from_date 27 22 = .OnePointTwo ∧
    PCBVersion.from_date 49 22 = .OnePointThree ∧
    PCBVersion.from_date w y = .Unknown := by
  have h1 : ¬(w = 49 ∧ y = 21) := fun hc => h (Or.inl hc)
  have h2 : ¬(w = 27 ∧ y = 22) := fun hc => h (Or.inr (Or.inl hc))
  have h3 : ¬(w = 49 ∧ y = 22) := fun hc => h (Or.inr (Or.inr hc))
  refine ⟨rfl, rfl, rfl, ?_⟩
  unfold PCBVersion.from_date
  rw [if_neg h1, if_neg h2, if_neg h3]

theorem pcbVersion_from_date_table_witness :
    PCBVersion.from_date 49 21 = .OnePointOne ∧
    PCBVersion.from_date 27 22 = .OnePointTwo ∧
    PCBVersion.from_date 49 22 = .OnePointThree ∧
    PCBVersion.from_date 50 21 = .Unknown :=
  pcbVersion_from_date_table 50 21 (by decide)

/-- C9: the decode `bcd_decode_to_int c` equals `10 * (c >> 4) + (c & 0xF)`
for every byte `c` without restriction — the source validates no nibble
range — and consequently, for a byte `b` whose nibbles `hi`, `lo` are both in
`0..9`, it is the two-digit decimal value `10 * hi + lo`; `0x49 ↦ 49` and
`0x00 ↦ 0`. -/
theorem bcd_decode_to_int_spec (b hi lo : Nat)
    (hsplit : b = 16 * hi + lo) (hhi : hi ≤ 9) (hlo : lo ≤ 9) :
    (∀ c : Nat, bcd_decode_to_int c = 10 * (c >>> 4) + (c &&& 0xF)) ∧
    bcd_decode_to_int b = 10 * hi + lo ∧
    bcd_decode_to_int 0x49 = 49 ∧
    bcd_decode_to_int 0x00 = 0 := by
  refine ⟨fun c => ?_, ?_, rfl, rfl⟩
  · have hshift : c >>> 4 = c / 16 := Nat.shiftRight_eq_div_pow c 4
    have hand : c &&& 0xF = c % 16 := Nat.and_pow_two_sub_one_eq_mod c 4
    rw [hshift, hand, bcd_decode_to_int]
  · rw [bcd_decode_to_int]
    omega

theorem bcd_decode_to_int_spec_witness :
    (∀ c : Nat, bcd_decode_to_int c = 10 * (c >>> 4) + (c &&& 0xF)) ∧
    bcd_decode_to_int 0x49 = 10 * 4 + 9 ∧
    bcd_decode_to_int 0x49 = 49 ∧
    bcd_decode_to_int 0x00 = 0 :=
  bcd_decode_to_int_spec 0x49 4 9 (by decide) (by decide) (by decide)

/-- C7: the constructor `Nag52Diag::new` always configures send id `0x07E1`, receive id
`0x07E9`, 10000 ms read/write timeouts, tester-present every 2000 ms with
response required, and registers the extended session mode `0x93`; the ISO-TP
block size and separation time are 0 for USB and Pass-Thru and 8/`0x20` for
SocketCAN, and on success the session handle carries exactly this
configuration. -/
theorem nag52diag_new_configuration :
    (∀ ty,
      (Nag52Diag.new_config ty).basic_opts.send_id = 0x07E1 ∧
      (Nag52Diag.new_config ty).basic_opts.recv_id = 0x07E9 ∧
      (Nag52Diag.new_config ty).basic_opts.timeout_cfg.read_timeout_ms = 10000 ∧
      (Nag52Diag.new_config ty).basic_opts.timeout_cfg.write_timeout_ms = 10000 ∧
      (Nag52Diag.new_config ty).adv_opts.tester_present_interval_ms = 2000 ∧
      (Nag52Diag.new_config ty).adv_opts.tester_present_require_response = true ∧
      (Nag52Diag.new_config ty).extra_session_modes.map DiagSessionMode.id = [0x93] ∧
      Nag52Diag.new ty none =
        .ok { endpoint_type := ty, endpoint := some ty,
              server := some (Nag52Diag.new_config ty) }) ∧
    (Nag52Diag.new_config .USB).channel_cfg.block_size = 0 ∧
    (Nag52Diag.new_config .USB).channel_cfg.st_min = 0 ∧
    (Nag52Diag.new_config .Passthru).channel_cfg.block_size = 0 ∧
    (Nag52Diag.new_config .Passthru).channel_cfg.st_min = 0 ∧
    (Nag52Diag.new_config .SocketCAN).channel_cfg.block_size = 8 ∧
    (Nag52Diag.new_config .SocketCAN).channel_cfg.st_min = 0x20 := by
  refine ⟨fun ty => ?_, rfl, rfl, rfl, rfl, rfl, rfl⟩
  cases ty <;> exact ⟨rfl, rfl, rfl, rfl, rfl, rfl, rfl, rfl⟩

/-- C6: once the session is torn down (server handle absent), every `with_kwp`
call returns the device-not-open hardware error, whatever the closure is; a
failed `try_reconnect` leaves the handle absent, and after a `try_reconnect`
that returns `Ok` the closure is invoked on the rebuilt server again. -/
theorem with_kwp_not_open_until_reconnect (d : Nag52Diag)
    (h : d.server = none) :
    (∀ (X : Type) (f : ServerConfig → Except DiagError X),
        d.with_kwp f = .error .DeviceNotOpen) ∧
    (∀ cr ne d' e, d.try_reconnect cr ne = (d', .error e) → d'.server = none) ∧
    (∀ cr ne d', d.try_reconnect cr ne = (d', .ok ()) →
        ∃ s, d'.server = some s ∧
          ∀ (X : Type) (g : ServerConfig → Except DiagError X),
            d'.with_kwp g = g s) := by
  refine ⟨fun X f => ?_, fun cr ne d' e hrec => ?_, fun cr ne d' hrec => ?_⟩
  · rw [Nag52Diag.with_kwp, h]
  · cases cr with
    | error e2 =>
      simp only [Nag52Diag.try_reconnect, Prod.mk.injEq] at hrec
      rw [← hrec.1]
    | ok dev =>
      cases ne with
      | none => simp [Nag52Diag.try_reconnect, Nag52Diag.new] at hrec
      | some e2 =>
        simp only [Nag52Diag.try_reconnect, Nag52Diag.new, Prod.mk.injEq] at hrec
        rw [← hrec.1]
  · cases cr with
    | error e2 => simp [Nag52Diag.try_reconnect] at hrec
    | ok dev =>
      cases ne with
      | some e2 => simp [Nag52Diag.try_reconnect, Nag52Diag.new] at hrec
      | none =>
        simp only [Nag52Diag.try_reconnect, Nag52Diag.new, Prod.mk.injEq] at hrec
        refine ⟨Nag52Diag.new_config dev, ?_, fun X g => ?_⟩
        · rw [← hrec.1]
        · rw [← hrec.1, Nag52Diag.with_kwp]

theorem with_kwp_not_open_until_reconnect_witness :
    (Nag52Diag.with_kwp { endpoint_type := .USB, endpoint := none, server := none }
      (fun _ => .ok (0 : Nat))) = .error .DeviceNotOpen :=
  (with_kwp_not_open_until_reconnect
    { endpoint_type := .USB, endpoint := none, server := none } rfl).1
    Nat (fun _ => .ok 0)

/-- Soundness of the scan loop: a returned index is at least the start index,
at most 50, the magic sits there, and at least 4 bytes remain. -/
theorem findMagicGo_sound :
    ∀ (tmp : List Nat) (idx j : Nat), findMagicGo tmp idx = some j →
      idx ≤ j ∧ j ≤ 50 ∧ (tmp.drop (j - idx)).take 4 = HEADER_MAGIC ∧
        j - idx + 4 ≤ tmp.length := by
  intro tmp
  induction tmp with
  | nil => intro idx j h; rw [findMagicGo] at h; simp [HEADER_MAGIC] at h
  | cons a rest ih =>
    intro idx j h
    have hm4 : HEADER_MAGIC.length = 4 := rfl
    rw [findMagicGo] at h
    by_cases h1 : (a :: rest).length < HEADER_MAGIC.length ∨ idx > 50
    · rw [if_pos h1] at h; exact absurd h (by simp)
    · rw [if_neg h1] at h
      simp only [not_or, not_lt, hm4] at h1
      by_cases h2 : (a :: rest).take HEADER_MAGIC.length = HEADER_MAGIC
      · rw [if_pos h2] at h
        have hj : j = idx := by simpa using h.symm
        subst hj
        rw [hm4] at h2
        refine ⟨le_refl _, h1.2, ?_, ?_⟩
        · rw [Nat.sub_self]
          simpa using h2
        · have := h1.1
          omega
      · rw [if_neg h2] at h
        obtain ⟨hle, h50, hmag, hlen⟩ := ih (idx + 1) j h
        refine ⟨by omega, h50, ?_, ?_⟩
        · have hd : j - idx = (j - (idx + 1)) + 1 := by omega
          rw [hd]
          simpa using hmag
        · simp only [List.length_cons]
          omega

/-- Completeness of the scan loop: if the magic occurs at a depth `d` of the
slice with `idx + d ≤ 50`, the loop finds it (at that or an earlier index). -/
theorem findMagicGo_complete :
    ∀ (tmp : List Nat) (idx d : Nat), idx + d ≤ 50 →
      (tmp.drop d).take 4 = HEADER_MAGIC →
      ∃ j, j ≤ idx + d ∧ findMagicGo tmp idx = some j := by
  intro tmp
  induction tmp with
  | nil =>
    intro idx d _ hmag
    simp [HEADER_MAGIC] at hmag
  | cons a rest ih =>
    intro idx d h50 hmag
    have hm4 : HEADER_MAGIC.length = 4 := rfl
    have hlen : d + 4 ≤ (a :: rest).length := by
      have hcg := congrArg List.length hmag
      simp only [List.length_take, List.length_drop, hm4] at hcg
      omega
    rw [findMagicGo]
    have h1 : ¬((a :: rest).length < HEADER_MAGIC.length ∨ idx > 50) := by
      rw [hm4]
      push_neg
      exact ⟨by omega, by omega⟩
    rw [if_neg h1]
    by_cases h2 : (a :: rest).take HEADER_MAGIC.length = HEADER_MAGIC
    · exact ⟨idx, by omega, by rw [if_pos h2]⟩
    · rw [if_neg h2]
      have hd : d ≠ 0 := by
        intro h0
        subst h0
        apply h2
        rw [hm4]
        simpa using hmag
      obtain ⟨j, hj, hfind⟩ := ih (idx + 1) (d - 1) (by omega) (by
        have hdrop : rest.drop (d - 1) = (a :: rest).drop d := by
          have hdd : d = (d - 1) + 1 := by omega
          rw [hdd]
          simp
        rw [hdrop]
        exact hmag)
      exact ⟨j, by omega, hfind⟩

set_option maxRecDepth 40000 in
/-- C5 (counterexample to the claim as stated): a buffer whose only magic
occurrence is at scan offset 50 — outside the claim's window of the first 50
scanned offsets (0..49) — with 256 bytes remaining.  `load_binary` succeeds on
it, so "succeeds exactly when the magic occurs within the first 50 scanned
offsets" is false. -/
theorem load_binary_offset50_succeeds :
    (load_binary
        (List.replicate 50 0 ++ HEADER_MAGIC ++ List.replicate 252 0)).isSome
      = true ∧
    (∀ i < 50,
      ((List.replicate 50 0 ++ HEADER_MAGIC ++ List.replicate 252 0).drop i).take 4
        ≠ HEADER_MAGIC) := by
  constructor
  · decide
  · decide

set_option maxRecDepth 40000 in
/-- C5 (amended): the loader `load_binary` succeeds exactly when the 4-byte magic
`32 54 CD AB` occurs at some scan offset in 0..=50 inclusive (the scan aborts
only from offset 51 on) and at least 256 bytes remain from that occurrence;
magic at offset 0 parses OK, at offset 49 parses OK, at offset 51 or absent
fails, and magic with fewer than 256 trailing bytes fails. -/
theorem load_binary_success_characterization :
    (∀ buf : List Nat, (load_binary buf).isSome ↔
        ∃ i, i ≤ 50 ∧ (buf.drop i).take 4 = HEADER_MAGIC ∧
          256 ≤ buf.length - i) ∧
    (load_binary (HEADER_MAGIC ++ List.replicate 252 0)).isSome = true ∧
    (load_binary
        (List.replicate 49 0 ++ HEADER_MAGIC ++ List.replicate 252 0)).isSome
      = true ∧
    load_binary (List.replicate 51 0 ++ HEADER_MAGIC ++ List.replicate 252 0)
      = none ∧
    load_binary (List.replicate 300 0) = none ∧
    load_binary (HEADER_MAGIC ++ List.replicate 251 0) = none := by
  refine ⟨fun buf => ?_, by decide, by decide, by decide, by decide, by decide⟩
  constructor
  · intro hsome
    cases hfind : findMagic buf 0 with
    | none =>
      exfalso
      have hnone : load_binary buf = none := by rw [load_binary, hfind]
      rw [hnone] at hsome
      simp at hsome
    | some idx =>
      have hsound := findMagicGo_sound buf 0 idx (by
        rw [findMagic, List.drop_zero] at hfind
        exact hfind)
      by_cases hlen : (buf.drop idx).length < HEADER_SIZE
      · exfalso
        have hnone : load_binary buf = none := by
          rw [load_binary, hfind]
          exact if_pos hlen
        rw [hnone] at hsome
        simp at hsome
      · refine ⟨idx, hsound.2.1, by simpa using hsound.2.2.1, ?_⟩
        simp only [List.length_drop, HEADER_SIZE, not_lt] at hlen
        exact hlen
  · rintro ⟨i, hi50, hmag, hrem⟩
    obtain ⟨j, hj, hfind⟩ := findMagicGo_complete buf 0 i (by omega) hmag
    have hfind2 : findMagic buf 0 = some j := by
      rw [findMagic, List.drop_zero]
      exact hfind
    have hlen : ¬((buf.drop j).length < HEADER_SIZE) := by
      simp only [List.length_drop, HEADER_SIZE, not_lt]
      omega
    have hok : load_binary buf = some j := by
      rw [load_binary, hfind2]
      exact if_neg hlen
    rw [hok]
    rfl

theorem toLE_length : ∀ (w v : Nat), (toLE w v).length = w
  | 0, _ => rfl
  | w + 1, v => by rw [toLE, List.length_cons, toLE_length w]

theorem fromLE_toLE : ∀ (w v : Nat), v < 256 ^ w → fromLE (toLE w v) = v := by
  intro w
  induction w with
  | zero =>
    intro v hv
    have : v = 0 := by simpa using hv
    subst this
    rfl
  | succ w ih =>
    intro v hv
    rw [toLE, fromLE, ih (v / 256) (by
      rw [Nat.div_lt_iff_lt_mul (by omega)]
      rw [pow_succ] at hv
      exact hv)]
    omega

theorem unpack_pack_fields (ws vs : List Nat)
    (h : List.Forall₂ (fun w x => x < 256 ^ w) ws vs) :
    unpack_fields ws (pack_fields ws vs) = some vs := by
  induction h with
  | nil => rfl
  | @cons w x ws vs hx hrest ih =>
    rw [pack_fields, unpack_fields]
    have hlen : w ≤ (toLE w x ++ pack_fields ws vs).length := by
      rw [List.length_append, toLE_length]
      omega
    rw [if_neg (by omega)]
    have htake : (toLE w x ++ pack_fields ws vs).take w = toLE w x :=
      List.take_left' (toLE_length w x)
    have hdrop : (toLE w x ++ pack_fields ws vs).drop w = pack_fields ws vs :=
      List.drop_left' (toLE_length w x)
    rw [htake, hdrop, ih]
    simp [fromLE_toLE w x hx]

/-- C2: for every settings type (given by the byte-width layout its SCN id
selects) and every valid value (one raw value per field, in range for the
field's width), unpacking the bytes produced by packing gives back the same
value. -/
theorem settings_roundtrip (layoutOf : Nat → List Nat) (scn_id : Nat)
    (v : List Nat)
    (hv : List.Forall₂ (fun w x => x < 256 ^ w) (layoutOf scn_id) v) :
    unpack_settings layoutOf scn_id (pack_settings layoutOf scn_id v) = some v := by
  rw [pack_settings, unpack_settings]
  exact unpack_pack_fields _ _ hv

theorem settings_roundtrip_witness :
    unpack_settings (fun _ => [2, 1, 4]) 0xFC
      (pack_settings (fun _ => [2, 1, 4]) 0xFC [0x1234, 5, 600000]) =
      some [0x1234, 5, 600000] :=
  settings_roundtrip (fun _ => [2, 1, 4]) 0xFC [0x1234, 5, 600000]
    (.cons (by decide) (.cons (by decide) (.cons (by decide) .nil)))

theorem ceil_mul_ge (S B : Nat) (hB : 0 < B) : S ≤ (S + B - 1) / B * B := by
  by_contra hcon
  push_neg at hcon
  have h2 : ((S + B - 1) / B + 1) * B ≤ S + B - 1 := by
    rw [add_mul, one_mul]
    omega
  have h3 : (S + B - 1) / B + 1 ≤ (S + B - 1) / B :=
    (Nat.le_div_iff_mul_le hB).mpr h2
  omega

theorem ceil_pred_mul_lt (S B : Nat) (hB : 0 < B) (hS : 0 < S) :
    ∀ j, j < (S + B - 1) / B → j * B < S := by
  intro j hj
  have h1 : (S + B - 1) / B * B ≤ S + B - 1 := Nat.div_mul_le_self _ _
  have h2 : (j + 1) * B ≤ (S + B - 1) / B * B := Nat.mul_le_mul_right B hj
  have h3 : (j + 1) * B = j * B + B := by ring
  omega

theorem ceil_le_self (S B : Nat) (hB : 0 < B) (hS : 0 < S) :
    (S + B - 1) / B ≤ S := by
  obtain ⟨b, rfl⟩ : ∃ b, B = b + 1 := ⟨B - 1, by omega⟩
  have h2 : b ≤ S * b := Nat.le_mul_of_pos_left b hS
  have hmul : S * (b + 1) = S * b + S := by ring
  calc (S + (b + 1) - 1) / (b + 1) ≤ S * (b + 1) / (b + 1) :=
        Nat.div_le_div_right (by omega)
    _ = S := Nat.mul_div_cancel S hB

/-- Invariant of the transfer loop: starting from a state whose accumulated
byte count is `min (i * B) S` — as the initial state's is — and given enough
fuel, the loop runs exactly to the `⌈S/B⌉`-th block, accumulates exactly `S`
bytes, and sends requests tagged `i+1, i+2, …` reduced mod 256. -/
theorem transferRun_spec (S B bc : Nat) (resp : Nat → List Nat) (hB : 0 < B)
    (hS : 0 < S)
    (hresp : ∀ k, ((resp k).drop 2).length = min B (S - k * B)) :
    ∀ (fuel : Nat) (st : TransferTrace),
      st.acc = min (st.i * B) S → st.i ≤ (S + B - 1) / B →
      (S + B - 1) / B ≤ st.i + fuel →
      (transferRun S bc resp fuel st).i = (S + B - 1) / B ∧
      (transferRun S bc resp fuel st).acc = S ∧
      (transferRun S bc resp fuel st).reqs =
        st.reqs ++ (List.range ((S + B - 1) / B - st.i)).map
          (fun t => (st.i + t + 1) % 256) := by
  intro fuel
  induction fuel with
  | zero =>
    intro st hacc hile hfuel
    have hieq : st.i = (S + B - 1) / B := by omega
    rw [transferRun]
    refine ⟨hieq, ?_, ?_⟩
    · rw [hacc, hieq]
      exact Nat.min_eq_right (ceil_mul_ge S B hB)
    · rw [hieq, Nat.sub_self]
      simp
  | succ fuel ih =>
    intro st hacc hile hfuel
    rw [transferRun]
    by_cases hdone : st.i = (S + B - 1) / B
    · have haccS : st.acc = S := by
        rw [hacc, hdone]
        exact Nat.min_eq_right (ceil_mul_ge S B hB)
      rw [if_neg (by omega)]
      refine ⟨hdone, haccS, ?_⟩
      rw [hdone, Nat.sub_self]
      simp
    · have hilt : st.i < (S + B - 1) / B := by omega
      have hmul : st.i * B < S := ceil_pred_mul_lt S B hB hS st.i hilt
      have haccval : st.acc = st.i * B := by
        rw [hacc]
        exact Nat.min_eq_left (le_of_lt hmul)
      rw [if_pos (by omega)]
      have hstep_i : (transferStep bc resp st).i = st.i + 1 := rfl
      have hstep_acc : (transferStep bc resp st).acc = min ((st.i + 1) * B) S := by
        show st.acc + ((resp st.i).drop 2).length = _
        rw [haccval, hresp st.i]
        have hsm : (st.i + 1) * B = st.i * B + B := by ring
        omega
      have hstep_reqs : (transferStep bc resp st).reqs =
          st.reqs ++ [(st.i + 1) % 256] := rfl
      obtain ⟨hi, haccf, hreqs⟩ := ih (transferStep bc resp st)
        (by rw [hstep_acc, hstep_i]) (by rw [hstep_i]; omega)
        (by rw [hstep_i]; omega)
      refine ⟨hi, haccf, ?_⟩
      rw [hreqs, hstep_reqs, hstep_i]
      have hN : (S + B - 1) / B - st.i = ((S + B - 1) / B - (st.i + 1)) + 1 := by
        omega
      rw [hN, List.range_succ_eq_map, List.map_cons, List.map_map]
      have hfun : ((fun t => (st.i + t + 1) % 256) ∘ Nat.succ) =
          (fun t => (st.i + 1 + t + 1) % 256) := by
        funext t
        simp only [Function.comp_apply]
        congr 1
        omega
      rw [hfun]
      simp

theorem blockResp_payload (S B k : Nat) :
    ((blockResp S B k).drop 2).length = min B (S - k * B) := by
  simp [blockResp]

set_option maxRecDepth 40000 in
/-- C3: with totalSize 0 the chunked read completes with zero transfer-data
requests and zero accumulated bytes; with totalSize `S > 0` and negotiated
block size `B`, each response carrying one block of payload (the last
truncated to the bytes remaining) after its 2-byte echo header, the loop
issues exactly `⌈S/B⌉` requests, the `k`-th tagged `k % 256` starting at 1,
stops once the accumulated count reaches `S`, and for `S = 1000`, `B = 256`
performs 4 reads accumulating exactly 1000 bytes before the transfer-exit. -/
theorem coredump_chunked_read (S B : Nat) (resp : Nat → List Nat)
    (hB : 0 < B) (hS : 0 < S)
    (hresp : ∀ k, ((resp k).drop 2).length = min B (S - k * B)) :
    ((coredumpRead 0 B resp).1.reqs = [] ∧ (coredumpRead 0 B resp).1.acc = 0 ∧
      (coredumpRead 0 B resp).2 = .completed) ∧
    ((coredumpRead S B resp).1.reqs =
        (List.range ((S + B - 1) / B)).map (fun k => (k + 1) % 256) ∧
      (coredumpRead S B resp).1.acc = S ∧
      (coredumpRead S B resp).2 = .completed) ∧
    ((coredumpRead 1000 256 (blockResp 1000 256)).1.reqs = [1, 2, 3, 4] ∧
      (coredumpRead 1000 256 (blockResp 1000 256)).1.acc = 1000) := by
  have hrun := transferRun_spec S B (S / B) resp hB hS hresp S
    { i := 0, acc := 0, reqs := [], log := [] } (by simp) (Nat.zero_le _)
    (by have := ceil_le_self S B hB hS; omega)
  have hco : coredumpRead S B resp =
      (transferRun S (S / B) resp S { i := 0, acc := 0, reqs := [], log := [] },
        .completed) := by
    rw [coredumpRead, if_neg (by omega)]
  refine ⟨⟨rfl, rfl, rfl⟩, ⟨?_, ?_, ?_⟩, by decide, by decide⟩
  · rw [hco]
    show (transferRun S (S / B) resp S
      { i := 0, acc := 0, reqs := [], log := [] }).reqs = _
    rw [hrun.2.2]
    simp only [List.nil_append, Nat.sub_zero, Nat.zero_add]
  · rw [hco]
    exact hrun.2.1
  · rw [hco]

theorem coredump_chunked_read_witness :
    ((coredumpRead 0 256 (blockResp 1000 256)).1.reqs = [] ∧
      (coredumpRead 0 256 (blockResp 1000 256)).1.acc = 0 ∧
      (coredumpRead 0 256 (blockResp 1000 256)).2 = .completed) ∧
    ((coredumpRead 1000 256 (blockResp 1000 256)).1.reqs =
        (List.range ((1000 + 256 - 1) / 256)).map (fun k => (k + 1) % 256) ∧
      (coredumpRead 1000 256 (blockResp 1000 256)).1.acc = 1000 ∧
      (coredumpRead 1000 256 (blockResp 1000 256)).2 = .completed) ∧
    ((coredumpRead 1000 256 (blockResp 1000 256)).1.reqs = [1, 2, 3, 4] ∧
      (coredumpRead 1000 256 (blockResp 1000 256)).1.acc = 1000) :=
  coredump_chunked_read 1000 256 (blockResp 1000 256) (by decide) (by decide)
    (blockResp_payload 1000 256)

set_option maxRecDepth 40000 in
/-- C4: the claim states every published `ReadingBlock` has
`out_of = ⌈S/B⌉`.  The source computes `block_count = size / block_size` with
integer (floor) division: at `S = 1000`, `B = 256`, `⌈S/B⌉ = 4` but every
published state carries `out_of = 3` (while `bytes_written` does track the
accumulated count, and `id` runs 2..5), so the progress fraction
`id / out_of` exceeds 1. -/
theorem readingBlock_out_of_is_floor :
    (coredumpRead 1000 256 (blockResp 1000 256)).1.log =
      [.readingBlock 2 3 256, .readingBlock 3 3 512,
        .readingBlock 4 3 768, .readingBlock 5 3 1000] ∧
    (1000 + 256 - 1) / 256 = 4 ∧ 1000 / 256 = 3 := by
  refine ⟨by decide, by decide, by decide⟩

/-- C10: the read pipeline is partial at its interfaces: stripping the 2-byte
echo header of a transfer-data response is undefined (panics) for responses
shorter than 2 bytes, persisting the coredump is undefined below 20
accumulated bytes — reachable, since any totalSize `0 < S < 20` accumulates
exactly `S < 20` bytes — and stripping the 2-byte header of a settings read
has the same precondition; under the length preconditions no panic branch is
reachable. -/
theorem read_pipeline_slicing
    (p q read read2 res res2 : List Nat) (S B : Nat)
    (hp : p.length < 2) (hq : 2 ≤ q.length)
    (hread : read.length < 20) (hread2 : 20 ≤ read2.length)
    (hres : 2 ≤ res.length) (hres2 : res2.length < 2)
    (hS0 : 0 < S) (hS20 : S < 20) (hB : 0 < B) :
    (∀ data, extendPayload data p = none) ∧
    persistCoredump read = none ∧
    scnResponsePayload res2 = none ∧
    (∀ data, (extendPayload data q).isSome = true) ∧
    (persistCoredump read2).isSome = true ∧
    (scnResponsePayload res).isSome = true ∧
    (coredumpRead S B (blockResp S B)).1.acc < 20 := by
  refine ⟨fun data => ?_, ?_, ?_, fun data => ?_, ?_, ?_, ?_⟩
  · rw [extendPayload, if_neg (by omega)]
  · rw [persistCoredump, if_neg (by omega)]
  · rw [scnResponsePayload, if_neg (by omega)]
  · rw [extendPayload, if_pos hq]
    rfl
  · rw [persistCoredump, if_pos hread2]
    rfl
  · rw [scnResponsePayload, if_pos hres]
    rfl
  · have hrun := transferRun_spec S B (S / B) (blockResp S B) hB hS0
      (blockResp_payload S B) S { i := 0, acc := 0, reqs := [], log := [] }
      (by simp) (Nat.zero_le _) (by have := ceil_le_self S B hB hS0; omega)
    have hco : coredumpRead S B (blockResp S B) =
        (transferRun S (S / B) (blockResp S B) S
          { i := 0, acc := 0, reqs := [], log := [] }, .completed) := by
      rw [coredumpRead, if_neg (by omega)]
    rw [hco]
    show (transferRun S (S / B) (blockResp S B) S
      { i := 0, acc := 0, reqs := [], log := [] }).acc < 20
    rw [hrun.2.1]
    omega

theorem read_pipeline_slicing_witness :
    (∀ data, extendPayload data [7] = none) ∧
    persistCoredump (List.replicate 19 0) = none ∧
    scnResponsePayload [] = none ∧
    (∀ data, (extendPayload data [0, 0, 9]).isSome = true) ∧
    (persistCoredump (List.replicate 20 0)).isSome = true ∧
    (scnResponsePayload [1, 2, 3]).isSome = true ∧
    (coredumpRead 5 256 (blockResp 5 256)).1.acc < 20 :=
  read_pipeline_slicing [7] [0, 0, 9] (List.replicate 19 0)
    (List.replicate 20 0) [1, 2, 3] [] 5 256 (by decide) (by decide)
    (by decide) (by decide) (by decide) (by decide) (by decide) (by decide)
    (by decide)

end UN52
